import Mathlib

/-!
Verification of the validation-error-to-line resolver and annotation overlay
of the NetworkasCodeAIAssistant VS Code extension.

The repository ships two copies of the annotations module.  The current one
(`annotations.ts`, whose function signatures match `extension.ts`) is embedded
at top level; the older copy (`src/annotations.ts`) differs in
`applyDecoration` (keyword filter) and `parseChatResponse` (direct marker
creation) and is embedded in namespace `V1`.

Documents are modelled as lists of line texts (1-based line numbers
externally).  JavaScript string primitives used by the source
(`split`, `includes`, `trim`, `startsWith`, `parseInt`, the regexes
`^\d+:\s*`, `^\d+` and `^(\s*)-`) are modelled by structurally
recursive functions over `List Char` so that everything evaluates by `decide`.
-/

/-- Whitespace as matched by the JavaScript `\s` class / `trim()`,
restricted to the characters that can occur in the editor's lines. -/
def jsWs (c : Char) : Bool :=
  c == ' ' || c == '\t' || c == '\n' || c == '\r'

/-- Trim of a character list: drop `jsWs` characters from both ends
(model of JavaScript `String.prototype.trim`). -/
def jsTrimList (cs : List Char) : List Char :=
  ((cs.dropWhile jsWs).reverse.dropWhile jsWs).reverse

/-- Model of JavaScript `s.trim()`. -/
def jsTrim (s : String) : String :=
  String.mk (jsTrimList s.toList)

/-- Substring test on character lists: `hasSub l pat` is true iff `pat`
occurs contiguously in `l` (model of JavaScript `includes`). -/
def hasSub : List Char → List Char → Bool
  | [], pat => pat.isEmpty
  | c :: t, pat => pat.isPrefixOf (c :: t) || hasSub t pat

/-- Model of JavaScript `s.includes(pat)`. -/
def containsStr (s pat : String) : Bool :=
  hasSub s.toList pat.toList

/-- Model of JavaScript `s.startsWith(pre)`. -/
def strStartsWith (s pre : String) : Bool :=
  pre.toList.isPrefixOf s.toList

/-- `charStartsWith s c` is `s.startsWith(c)` for a one-character argument. -/
def charStartsWith (s : String) (c : Char) : Bool :=
  s.toList.head? == some c

/-- Lower-casing of a string (model of JavaScript `toLowerCase` on the
ASCII texts the linters produce). -/
def jsLower (s : String) : String :=
  String.mk (s.toList.map Char.toLower)

/-- Split a character list at every occurrence of the separator character
(model of JavaScript `split(sep)` for a one-character separator: splitting
the empty list yields `[[]]`, like `"".split(".") == [""]`). -/
def splitOnChar (sep : Char) : List Char → List (List Char)
  | [] => [[]]
  | c :: rest =>
    if c == sep then
      [] :: splitOnChar sep rest
    else
      match splitOnChar sep rest with
      | h :: t => (c :: h) :: t
      | [] => [[c]]

/-- Digits-prefix parser: value of the leading decimal digits of `cs`,
`none` when there is no leading digit. -/
def leadDigits (cs : List Char) : Option Nat :=
  let ds := cs.takeWhile Char.isDigit
  if ds.isEmpty then none
  else some (ds.foldl (fun a c => a * 10 + (c.toNat - 48)) 0)

/-- Model of JavaScript `parseInt(s, 10)`: skip leading whitespace, accept an
optional sign, then read leading digits; `none` models `NaN`. -/
def jsParseInt (s : String) : Option Int :=
  match s.toList.dropWhile jsWs with
  | '-' :: rest => (leadDigits rest).map (fun n => -(n : Int))
  | '+' :: rest => (leadDigits rest).map (fun n => (n : Int))
  | cs => (leadDigits cs).map (fun n => (n : Int))

/-- Model of `splitCodeLines[i].match(/^\d+/)` followed by `parseInt`:
the numeric value of the leading digits of the line, if any. -/
def leadNat (s : String) : Option Nat :=
  leadDigits s.toList

/-- Model of `line.replace(/^\d+:\s*/, '')`: when the line starts with one
or more digits followed by `:`, remove them together with all following
whitespace (note that this also removes the YAML indentation, because the
rendered lines are `"N: <text> "`); otherwise the line is unchanged. -/
def stripLineNum (s : String) : String :=
  let cs := s.toList
  let ds := cs.takeWhile Char.isDigit
  if ds.isEmpty then s
  else
    match cs.drop ds.length with
    | ':' :: rest => String.mk (rest.dropWhile jsWs)
    | _ => s

/-- Model of `lineWithoutNumber.match` against the regex `^(\s*)-`: the
leading-whitespace capture group when the first non-whitespace character
is `-`. -/
def matchIndentDash (s : String) : Option String :=
  let ws := s.toList.takeWhile jsWs
  if (s.toList.drop ws.length).head? == some '-' then some (String.mk ws)
  else none

/-- `getVisibleCodeWithLineNumbers` from annotations.ts: each document line
is rendered as `"N: <text> \n"` (1-based `N`, a space before the newline)
and the renderings are concatenated. -/
def getVisibleCodeWithLineNumbers (doc : List String) : String :=
  String.join ((doc.enum).map (fun e => toString (e.1 + 1) ++ ": " ++ e.2 ++ " \n"))

/-- Split a character list at every newline, like `split('\n')`. -/
def splitNl (cs : List Char) : List (List Char) :=
  splitOnChar '\n' cs

/-- `codeWithLineNumbers.split('\n')` as computed inside
`yamaleAnnotationLines`: the rendered lines `"N: <text> "` followed by one
trailing empty entry (index `i` of this array holds document line `i + 1`). -/
def splitCodeLines (doc : List String) : List String :=
  (splitNl (getVisibleCodeWithLineNumbers doc).toList).map (fun cs => String.mk cs)

/-- The Key-segment scan loop of `yamaleAnnotationLines`
(`for (let i = currentLine; i < splitCodeLines.length; i++)`, the
`isNaN(parseInt(p, 10))` branch), running over the remaining entries:
the first entry whose number-stripped, trimmed text contains `p` ends the
loop, and the cursor becomes that entry's leading line number (the cursor
is kept when the entry has no leading number, `match(/^\d+/)` failing). -/
def keyLoop (p : String) (cur : Nat) : List String → Nat
  | [] => cur
  | entry :: rest =>
    if containsStr (jsTrim (stripLineNum entry)) p then
      match leadNat entry with
      | some n => n
      | none => cur
    else keyLoop p cur rest

/-- A Key segment processed from cursor `cur`: the source loop starts at
array index `currentLine`, i.e. at the entries `(splitCodeLines).drop cur`. -/
def keyStep (split : List String) (p : String) (cur : Nat) : Nat :=
  keyLoop p cur (split.drop cur)

/-- The Index-segment scan loop of `yamaleAnnotationLines` (the numeric
branch): walk the remaining entries carrying `numDashes`, `foundFirstElem`
and `indentation` exactly as the source does; on a list-item entry, record
the indentation of the first one seen, and when `numDashes` equals the
target index and the entry starts with `indentation ++ "-"`, the cursor
becomes that entry's leading line number. -/
def indexLoop (n : Int) (cur : Nat) :
    List String → Int → Bool → String → Nat
  | [], _, _, _ => cur
  | entry :: rest, numDashes, foundFirst, indent =>
    let lwn := stripLineNum entry
    if charStartsWith (jsTrim lwn) '-' then
      let fi :=
        if !foundFirst then
          match matchIndentDash lwn with
          | some g => (true, g)
          | none => (foundFirst, indent)
        else (foundFirst, indent)
      if numDashes == n && strStartsWith lwn (fi.2 ++ "-") then
        match leadNat entry with
        | some m => m
        | none => cur
      else indexLoop n cur rest (numDashes + 1) fi.1 fi.2
    else indexLoop n cur rest numDashes foundFirst indent

/-- An Index segment with value `n` processed from cursor `cur`
(`numDashes = 0`, `foundFirstElem = false`, `indentation = ""`). -/
def indexStep (split : List String) (n : Int) (cur : Nat) : Nat :=
  indexLoop n cur (split.drop cur) 0 false ""

/-- One path part processed: the source tests `isNaN(parseInt(p, 10))` and
runs the Key scan on non-numbers, the Index scan on numbers. -/
def partStep (split : List String) (p : String) (cur : Nat) : Nat :=
  match jsParseInt p with
  | none => keyStep split p cur
  | some n => indexStep split n cur

/-- `r.split(":")[0].split(".")` from `yamaleAnnotationLines`: the part of
the raw error before the first colon (the whole string when there is no
colon), split at every dot. -/
def pathParts (r : String) : List String :=
  (splitOnChar '.' ((splitOnChar ':' r.toList).headD [])).map
    (fun cs => String.mk cs)

/-- The missing-field test of `yamaleAnnotationLines`:
`r.includes("missing")` — a case-sensitive substring test on the whole raw
error string, key path included. -/
def missingClass (r : String) : Bool :=
  containsStr r "missing"

/-- The `keyParts` computed by `yamaleAnnotationLines`: all path parts,
minus the last one when the missing-field test fires (`parts.slice(0, -1)`). -/
def adjustedParts (r : String) : List String :=
  if missingClass r then (pathParts r).dropLast else pathParts r

/-- Resolution of one raw error (one iteration of the `for (const r of
response)` loop of `yamaleAnnotationLines`): a single-part path is pushed
as line 1; a longer path walks its (possibly missing-adjusted) parts from
cursor 1; `none` mirrors that nothing is pushed otherwise (unreachable,
since splitting never returns an empty array). -/
def resolveError (split : List String) (r : String) : Option Nat :=
  let parts := pathParts r
  if parts.length == 1 then some 1
  else if parts.length > 1 then
    some ((adjustedParts r).foldl (fun cur p => partStep split p cur) 1)
  else none

/-- `yamaleAnnotationLines` from annotations.ts: resolve every raw error of
the Yamale failure report against the rendered document. -/
def yamaleAnnotationLines (response : List String) (doc : List String) :
    List Nat :=
  let split := splitCodeLines doc
  response.filterMap (fun r => resolveError split r)

/-! ## Annotation overlay state

The module-level state `activeDecorations` / `decoratedLines` of
annotations.ts: live markers are modelled as `(line, suggestion)` pairs in
creation order, and the `Set` of decorated lines as a duplicate-free list
in insertion order. -/

/-- The overlay: `activeDecorations` (live decoration handles, modelled by
the line and suggestion they were created with) and `decoratedLines`
(the `Set<number>` of lines holding a decoration). -/
structure OverlayState where
  activeDecorations : List (Nat × String)
  decoratedLines : List Nat
deriving Repr, DecidableEq

/-- The initial overlay (also the result of every full clear). -/
def emptyOverlay : OverlayState := ⟨[], []⟩

/-- `applyDecoration` from annotations.ts: skip when the line already has a
decoration, otherwise create the marker, push it onto `activeDecorations`
and add the line to `decoratedLines`. -/
def applyDecoration (s : OverlayState) (line : Nat) (suggestion : String) :
    OverlayState :=
  if s.decoratedLines.contains line then s
  else
    { activeDecorations := s.activeDecorations ++ [(line, suggestion)],
      decoratedLines := s.decoratedLines ++ [line] }

/-- The clear block run at the top of `parseChatResponse` and on the
successful-validation path of `yamale`: dispose every live decoration and
empty both containers. -/
def clearDecorations (_s : OverlayState) : OverlayState := ⟨[], []⟩

/-- `parseChatResponse` from annotations.ts, over the list of
`(line, suggestion)` records its regex/`JSON.parse` loop extracts from the
response string (the `"{}"` response corresponds to the empty list): clear
the previous decorations first, then apply each record whose suggestion
does not contain `"\x7b\x7d"` through `applyDecoration`. -/
def parseChatResponse (anns : List (Nat × String)) (s : OverlayState) :
    OverlayState :=
  let s0 := clearDecorations s
  if anns.isEmpty then s0
  else
    anns.foldl
      (fun st a =>
        if containsStr a.2 "\x7b\x7d" then st
        else applyDecoration st a.1 a.2) s0

/- The older copy of the annotations module, `src/annotations.ts`. -/
namespace V1

/-- The `badKeywords` list of `src/annotations.ts`'s `applyDecoration`. -/
def badKeywords : List String := ["indent", "indented", "align"]

/-- `applyDecoration` from `src/annotations.ts`: additionally skips any
suggestion whose lower-cased text contains one of `badKeywords`. -/
def applyDecoration (s : OverlayState) (line : Nat) (suggestion : String) :
    OverlayState :=
  if s.decoratedLines.contains line ||
      badKeywords.any (fun keyword => containsStr (jsLower suggestion) keyword) then
    s
  else
    { activeDecorations := s.activeDecorations ++ [(line, suggestion)],
      decoratedLines := s.decoratedLines ++ [line] }

/-- `parseChatResponse` from `src/annotations.ts`: clears first, but then
creates a decoration directly for every parsed record (no
`decoratedLines.has` check — it pushes the marker and `Set.add`s the line
itself instead of calling `applyDecoration`). -/
def parseChatResponse (anns : List (Nat × String)) (s : OverlayState) :
    OverlayState :=
  let s0 := clearDecorations s
  if anns.isEmpty then s0
  else
    anns.foldl
      (fun st a =>
        if containsStr a.2 "\x7b\x7d" then st
        else
          { activeDecorations := st.activeDecorations ++ [(a.1, a.2)],
            decoratedLines :=
              if st.decoratedLines.contains a.1 then st.decoratedLines
              else st.decoratedLines ++ [a.1] }) s0

end V1

/-! ## Operation traces of a validation pass

The `validate-and-lint` command of extension.ts runs
`await yamale(true, "", textEditor)` and then
`await ansibleYAMLLint(true, "", textEditor)`.  The overlay operations each
of them emits are modelled as a trace. -/

/-- One overlay operation: an `applyDecoration` invocation (`apply` for the
current module, `applyBK` for the `src/annotations.ts` variant with the
keyword filter) or the full clear. -/
inductive OverlayOp where
  | apply (line : Nat) (text : String)
  | applyBK (line : Nat) (text : String)
  | clear
deriving Repr, DecidableEq

/-- Run one overlay operation on a state. -/
def runOp (s : OverlayState) : OverlayOp → OverlayState
  | OverlayOp.apply line text => applyDecoration s line text
  | OverlayOp.applyBK line text => V1.applyDecoration s line text
  | OverlayOp.clear => clearDecorations s

/-- Run a list of overlay operations from a state. -/
def runOps (ops : List OverlayOp) (s : OverlayState) : OverlayState :=
  ops.foldl runOp s

/-- Outcome of the Yamale invocation, classified exactly as `yamale` does:
`stderr` output is a tool error, stdout containing `Validation failed!`
carries the raw error lines, anything else is a success. -/
inductive ValidationOutcome where
  | success (msg : String)
  | failure (errors : List String)
  | toolError (msg : String)

/-- The overlay operations emitted by `parseChatResponse`: the clear, then
one `applyDecoration` invocation per parsed record whose suggestion does
not contain `"\x7b\x7d"`. -/
def parseChatResponseOps (anns : List (Nat × String)) : List OverlayOp :=
  OverlayOp.clear ::
    (anns.filter (fun a => !containsStr a.2 "\x7b\x7d")).map
      (fun a => OverlayOp.apply a.1 a.2)

/-- The overlay operations emitted by one `yamale` call.  `modelResult` is
the outcome of the model round-trip on a failed validation: `some anns`
when a chat response was received and `JSON.parse` succeeded (the zipped
line/suggestion records handed to `parseChatResponse`), `none` when no
model was available, the request threw, or its output was unparseable (the
`catch` path, which never reaches `parseChatResponse`).  On a tool error
(`stderr`) the overlay is untouched; on success the decorations are
cleared; on failure only a successful model round-trip reaches
`parseChatResponse`. -/
def yamaleOps (annotations : Bool)
    (outcome : ValidationOutcome)
    (modelResult : Option (List (Nat × String))) : List OverlayOp :=
  if !annotations then []
  else
    match outcome with
    | ValidationOutcome.toolError _ => []
    | ValidationOutcome.success _ => [OverlayOp.clear]
    | ValidationOutcome.failure _ =>
      match modelResult with
      | none => []
      | some anns => parseChatResponseOps anns

/-- The overlay operations emitted by one `ansibleYAMLLint` call: one
`applyDecoration` invocation per extracted ansible-lint finding, then one
per extracted yamllint finding (with the `"[yamllint]: "` prefix); no
clear anywhere. -/
def ansibleYAMLLintOps (annotations : Bool)
    (ansibleFindings yamlFindings : List (Nat × String)) : List OverlayOp :=
  if !annotations then []
  else
    (ansibleFindings.map (fun f => OverlayOp.apply f.1 f.2)) ++
      (yamlFindings.map (fun f => OverlayOp.apply f.1 ("[yamllint]: " ++ f.2)))

/-- The overlay-operation trace of one `validate-and-lint` pass:
`yamale(true, ...)` followed by `ansibleYAMLLint(true, ...)`. -/
def validateAndLintOps (outcome : ValidationOutcome)
    (modelResult : Option (List (Nat × String)))
    (ansibleFindings yamlFindings : List (Nat × String)) : List OverlayOp :=
  yamaleOps true outcome modelResult ++
    ansibleYAMLLintOps true ansibleFindings yamlFindings

/-- `noApplyBeforeClear ops` holds when no apply operation occurs before
the first clear of the trace — i.e. every apply of the trace has a clear
happening before it.  Since every operation is an apply or a clear, this
is decided by the head of the trace. -/
def noApplyBeforeClear : List OverlayOp → Bool
  | [] => true
  | OverlayOp.clear :: _ => true
  | OverlayOp.apply _ _ :: _ => false
  | OverlayOp.applyBK _ _ :: _ => false

/-! ## Specification-side definitions

The following definitions follow the specification's words (not the
source); they exist to be compared with the source embedding above. -/

/-- Modelled from the spec: Key-segment scan over document lines numbered
`ln, ln + 1, ...` — the first line whose trimmed text contains `p` becomes
the cursor, otherwise the cursor `cur` is kept. -/
def keyScanSpecAux (p : String) (cur : Nat) : Nat → List String → Nat
  | _, [] => cur
  | ln, t :: rest =>
    if containsStr (jsTrim t) p then ln else keyScanSpecAux p cur (ln + 1) rest

/-- Modelled from the spec (claim C2's words): a Key segment scans the
document from the cursor line itself (lines `cur, cur + 1, ...`) to the
end. -/
def keyStepSpecC2 (doc : List String) (p : String) (cur : Nat) : Nat :=
  keyScanSpecAux p cur cur (doc.drop (cur - 1))

/-- Modelled from the spec (claim C3's words): the reference indentation —
the leading whitespace of the first line at or after the cursor whose
trimmed text starts with `-`. -/
def dashRefIndent : List String → Option String
  | [] => none
  | t :: rest =>
    if charStartsWith (jsTrim t) '-' then some (String.mk (t.toList.takeWhile jsWs))
    else dashRefIndent rest

/-- Modelled from the spec (claim C3's words): starting at document line
`ln` with running count `k`, find the `n`-th (0-based) list-item line
whose leading whitespace is exactly `ref`; `cur` when there is none. -/
def nthDashAt (ref : String) (n : Int) (cur : Nat) :
    Nat → Int → List String → Nat
  | _, _, [] => cur
  | ln, k, t :: rest =>
    if charStartsWith (jsTrim t) '-' && String.mk (t.toList.takeWhile jsWs) == ref then
      if k == n then ln else nthDashAt ref n cur (ln + 1) (k + 1) rest
    else nthDashAt ref n cur (ln + 1) k rest

/-- Modelled from the spec (claim C3's words): an Index segment scans from
the cursor line onward, takes the first list-item line's leading
whitespace as reference indentation, and counts only list-item lines with
exactly that indentation. -/
def indexStepSpecC3 (doc : List String) (n : Int) (cur : Nat) : Nat :=
  match dashRefIndent (doc.drop (cur - 1)) with
  | none => cur
  | some ref => nthDashAt ref n cur cur 0 (doc.drop (cur - 1))

/-- Modelled from the spec (claim C3 as amended): count every list-item
line (any indentation) over document lines numbered `ln, ln + 1, ...`;
the `n`-th (0-based) one becomes the cursor, else `cur` is kept. -/
def indexScanSpecAux (n : Int) (cur : Nat) : Nat → Int → List String → Nat
  | _, _, [] => cur
  | ln, k, t :: rest =>
    if charStartsWith (jsTrim t) '-' then
      if k == n then ln else indexScanSpecAux n cur (ln + 1) (k + 1) rest
    else indexScanSpecAux n cur (ln + 1) k rest

/-- Modelled from the spec (claim C4's words): the message text of a raw
error — the part after the first colon, trimmed. -/
def messageTextOf (r : String) : String :=
  jsTrim (String.mk ((r.toList.dropWhile (fun c => !(c == ':'))).drop 1))

/-- Modelled from the spec (claim C4's words): missing-field
classification — the message text contains the word "missing"
case-insensitively. -/
def specMissingClass (r : String) : Bool :=
  containsStr (jsLower (messageTextOf r)) "missing"

/-! ## Helper lemmas -/

/-- `applyDecoration` and `clearDecorations` preserve the overlay
invariant: the decorated-lines set is duplicate-free and its size equals
the number of live markers. -/
theorem overlayInv_runOp (s : OverlayState) (op : OverlayOp)
    (h₁ : s.decoratedLines.Nodup)
    (h₂ : s.decoratedLines.length = s.activeDecorations.length) :
    (runOp s op).decoratedLines.Nodup ∧
      (runOp s op).decoratedLines.length = (runOp s op).activeDecorations.length := by
  cases op with
  | clear => simp [runOp, clearDecorations]
  | apply line text =>
    by_cases hm : line ∈ s.decoratedLines
    · simp [runOp, applyDecoration, hm, h₁, h₂]
    · simp [runOp, applyDecoration, hm, List.nodup_append, h₁, h₂]
  | applyBK line text =>
    by_cases hm : line ∈ s.decoratedLines
    · simp [runOp, V1.applyDecoration, hm, h₁, h₂]
    · by_cases hk : ∃ keyword ∈ V1.badKeywords, containsStr (jsLower text) keyword = true
      · simp [runOp, V1.applyDecoration, hm, hk, h₁, h₂]
      · simp [runOp, V1.applyDecoration, hm, hk, List.nodup_append, h₁, h₂]

theorem overlayInv_runOps (ops : List OverlayOp) :
    ∀ s : OverlayState, s.decoratedLines.Nodup →
      s.decoratedLines.length = s.activeDecorations.length →
      (runOps ops s).decoratedLines.Nodup ∧
        (runOps ops s).decoratedLines.length = (runOps ops s).activeDecorations.length := by
  induction ops with
  | nil => intro s h₁ h₂; exact ⟨h₁, h₂⟩
  | cons op ops ih =>
    intro s h₁ h₂
    have h := overlayInv_runOp s op h₁ h₂
    simpa [runOps] using ih (runOp s op) h.1 h.2

/-! ## Claim theorems -/

/-- C1: for the document `["devices:", "  - name: sw1", "  - name: sw2",
"  - type: x"]` and the raw error
`"devices.1.type: Required field missing"`, the missing-field test fires,
the final path segment is dropped giving the adjusted path
`devices.1`, and the resolver returns exactly line 3 (the 0-indexed list
item number 1, `- name: sw2`). -/
theorem c1_devices_scenario :
    missingClass "devices.1.type: Required field missing" = true ∧
    adjustedParts "devices.1.type: Required field missing" = ["devices", "1"] ∧
    yamaleAnnotationLines ["devices.1.type: Required field missing"]
      ["devices:", "  - name: sw1", "  - name: sw2", "  - type: x"] = [3] := by
  decide

/-- C6 counterexample: the first-writer-wins equation fails on two apply
paths of `src/annotations.ts`.  Through its `parseChatResponse` (which
creates decorations directly, without the `decoratedLines.has` check),
applying `"a"` and then `"b"` to line 5 within one pass creates a second
marker for line 5 and leaves the overlay holding both texts.  And through
its `applyDecoration`, a first suggestion suppressed by the keyword filter
(`"use indentation"`) occupies no line, so the second writer lands: the
overlay ends up holding `b`, not `a`. -/
theorem c6_counterexample_v1_parse :
    (V1.parseChatResponse [(5, "a"), (5, "b")] emptyOverlay).activeDecorations
      = [(5, "a"), (5, "b")] ∧
    (V1.parseChatResponse [(5, "a"), (5, "b")] emptyOverlay).activeDecorations.length
      = 2 ∧
    (V1.applyDecoration (V1.applyDecoration emptyOverlay 3 "use indentation")
        3 "set type").activeDecorations = [(3, "set type")] := by
  decide

/-- C6 as amended: a line that already holds an annotation is never
overwritten — `applyDecoration` of either module version is a no-op when
the line is already in `decoratedLines`.  Hence `apply(L, a)` then
`apply(L, b)` leaves the overlay holding `a` and not `b` whenever the
first apply actually recorded the line: unconditionally for the current
module's `applyDecoration` (whose only skip is the line check), and for
`src/annotations.ts`'s `applyDecoration` under the hypothesis that the
first apply occupied the line (which fails when the first suggestion is
keyword-filtered — then the second writer lands).  In particular the
current module's `parseChatResponse` keeps only the first suggestion for
a repeated line; the rule does not hold at all for the direct marker
creation in `src/annotations.ts`'s `parseChatResponse`. -/
theorem c6_apply_first_writer_wins :
    (∀ (s : OverlayState) (line : Nat) (a b : String),
      applyDecoration (applyDecoration s line a) line b
        = applyDecoration s line a) ∧
    (∀ (s : OverlayState) (line : Nat) (b : String),
      line ∈ s.decoratedLines → V1.applyDecoration s line b = s) ∧
    (∀ (s : OverlayState) (line : Nat) (a b : String),
      line ∈ (V1.applyDecoration s line a).decoratedLines →
        V1.applyDecoration (V1.applyDecoration s line a) line b
          = V1.applyDecoration s line a) ∧
    (parseChatResponse [(5, "fix a"), (5, "fix b")] emptyOverlay).activeDecorations
      = [(5, "fix a")] := by
  have hv1 : ∀ (s : OverlayState) (line : Nat) (b : String),
      line ∈ s.decoratedLines → V1.applyDecoration s line b = s := by
    intro s line b hm
    simp [V1.applyDecoration, hm]
  refine ⟨?_, hv1, ?_, by decide⟩
  · intro s line a b
    by_cases hm : line ∈ s.decoratedLines
    · simp [applyDecoration, hm]
    · simp [applyDecoration, hm]
  · intro s line a b hm
    exact hv1 (V1.applyDecoration s line a) line b hm

theorem c6_apply_first_writer_wins_witness :
    (5 ∈ (V1.applyDecoration emptyOverlay 5 "set the type").decoratedLines) ∧
    V1.applyDecoration (V1.applyDecoration emptyOverlay 5 "set the type") 5 "use sw2"
      = V1.applyDecoration emptyOverlay 5 "set the type" :=
  ⟨by decide,
    c6_apply_first_writer_wins.2.2.1 emptyOverlay 5 "set the type" "use sw2" (by decide)⟩

/-- C7 counterexample: on a failing validation where the model-suggestion
step fails or returns unparseable output (the `catch` path, which never
reaches `parseChatResponse` and hence never clears), and likewise on a
Yamale tool error, the pass emits style-lint applies with no clear before
them — the claim that a full clear happens before any apply of every pass
is false. -/
theorem c7_counterexample_no_clear :
    noApplyBeforeClear (validateAndLintOps
        (ValidationOutcome.failure ["devices.1.type: Required field missing"])
        none [] [(3, "too many spaces")]) = false ∧
    noApplyBeforeClear (validateAndLintOps
        (ValidationOutcome.toolError "yamale: command not found")
        none [(2, "risky-shell-pipe")] []) = false := by
  decide

/-- C7 as amended: the clear precedes every apply of the pass exactly when
`yamale` succeeds (clear on the success path) or fails with a successful,
parseable model round-trip (clear at the top of `parseChatResponse`);
when the model step fails or returns unparseable output, or Yamale itself
errors, the pass emits no clear at all and only the style-lint applies
run, against the previous overlay. -/
theorem c7_clear_before_apply_cases (msg : String) (errs : List String)
    (mr : Option (List (Nat × String)))
    (anns af yf : List (Nat × String)) :
    noApplyBeforeClear (validateAndLintOps (ValidationOutcome.success msg) mr af yf)
      = true ∧
    noApplyBeforeClear (validateAndLintOps (ValidationOutcome.failure errs) (some anns) af yf)
      = true ∧
    validateAndLintOps (ValidationOutcome.failure errs) none af yf
      = ansibleYAMLLintOps true af yf ∧
    validateAndLintOps (ValidationOutcome.toolError msg) mr af yf
      = ansibleYAMLLintOps true af yf := by
  refine ⟨?_, ?_, ?_, ?_⟩ <;>
    simp [validateAndLintOps, yamaleOps, parseChatResponseOps, noApplyBeforeClear]

/-- C8 counterexample: after the `src/annotations.ts` `parseChatResponse`
processes two records for the same line, the overlay holds one distinct
line key but two live markers — the mapping size does not equal the number
of live markers. -/
theorem c8_counterexample_size_mismatch :
    (V1.parseChatResponse [(7, "x"), (7, "y")] emptyOverlay).decoratedLines.length = 1 ∧
    (V1.parseChatResponse [(7, "x"), (7, "y")] emptyOverlay).activeDecorations.length = 2 := by
  decide

/-- C8 as amended: along every sequence of `applyDecoration` invocations
(either module's version) and clears starting from the empty overlay, the
decorated-lines set stays duplicate-free and its size equals the number of
live markers at every point (every prefix of a sequence being itself a
sequence); the direct marker creation in `src/annotations.ts`'s
`parseChatResponse` is the one populating path that breaks this. -/
theorem c8_mapping_size_eq_markers (ops : List OverlayOp) :
    (runOps ops emptyOverlay).decoratedLines.Nodup ∧
    (runOps ops emptyOverlay).decoratedLines.length
      = (runOps ops emptyOverlay).activeDecorations.length :=
  overlayInv_runOps ops emptyOverlay (by simp [emptyOverlay]) (by simp [emptyOverlay])

/-- C10: `applyDecoration` of `src/annotations.ts` is a no-op for every
suggestion whose lower-cased text contains one of the `badKeywords`
(`"indent"`, `"indented"`, `"align"`): no marker is created, the line is
not recorded, the overlay is unchanged. -/
theorem c10_keyword_suggestions_suppressed (s : OverlayState) (line : Nat)
    (suggestion : String)
    (h : ∃ keyword ∈ V1.badKeywords, containsStr (jsLower suggestion) keyword = true) :
    V1.applyDecoration s line suggestion = s := by
  simp [V1.applyDecoration, h]

theorem c10_keyword_suggestions_suppressed_witness :
    (∃ keyword ∈ V1.badKeywords,
      containsStr (jsLower "Fix the Alignment of this block") keyword = true) ∧
    V1.applyDecoration emptyOverlay 4 "Fix the Alignment of this block" = emptyOverlay :=
  ⟨by decide, c10_keyword_suggestions_suppressed emptyOverlay 4
    "Fix the Alignment of this block" (by decide)⟩

/-- `hasSub` really is substring containment: it holds exactly when the
pattern is an infix of the scanned list. -/
theorem hasSub_iff_infix (l pat : List Char) : hasSub l pat = true ↔ pat <:+: l := by
  induction l with
  | nil =>
    rw [show hasSub [] pat = pat.isEmpty from rfl, List.isEmpty_iff, List.infix_nil]
  | cons c t ih =>
    rw [show hasSub (c :: t) pat = (pat.isPrefixOf (c :: t) || hasSub t pat) from rfl,
      Bool.or_eq_true, List.isPrefixOf_iff_prefix, ih, List.infix_cons_iff]

/-- A raw error whose path part is a single segment resolves to line 1
(the `parts.length === 1` branch of `yamaleAnnotationLines`). -/
theorem resolveError_singleton (split : List String) (r : String)
    (h : (pathParts r).length = 1) : resolveError split r = some 1 := by
  simp [resolveError, h]

/-- Splitting a character list that does not contain the separator yields
the whole list as the only piece. -/
theorem splitOnChar_of_not_contains (sep : Char) (l : List Char)
    (h : l.contains sep = false) : splitOnChar sep l = [l] := by
  induction l with
  | nil => simp [splitOnChar]
  | cons c t ih =>
    simp only [List.contains_cons, Bool.or_eq_false_iff] at h
    have hne : sep ≠ c := by simpa using h.1
    have hc : (c == sep) = false := beq_eq_false_iff_ne.mpr (Ne.symm hne)
    simp [splitOnChar, hc, ih h.2]

/-- C4 counterexample: the source classifies by `r.includes("missing")`
— case-sensitively, over the whole raw error string.  A capitalised
`Missing` in the message does not classify as missing, and `missing`
occurring only in the key-path part does (and then the final path segment
is dropped: `missing_field.b` resolves as `missing_field` alone, giving
line 1 instead of the field's line 2). -/
theorem c4_counterexample_classification :
    missingClass "a.b: Required field Missing" = false ∧
    specMissingClass "a.b: Required field Missing" = true ∧
    missingClass "missing_field.b: wrong type" = true ∧
    specMissingClass "missing_field.b: wrong type" = false ∧
    yamaleAnnotationLines ["missing_field.b: wrong type"]
      ["missing_field:", "  b: 2"] = [1] := by
  decide

/-- C4 as amended: the missing-field classification is true iff the whole
raw error string — key path and message alike — contains the exact
lower-case substring `"missing"`; a capitalised `Missing` does not
classify, an occurrence inside the key-path part does. -/
theorem c4_missing_whole_string_case_sensitive :
    (∀ r : String, missingClass r = true ↔ "missing".toList <:+: r.toList) ∧
    missingClass "a.b: Required field Missing" = false ∧
    missingClass "missing_field.b: wrong type" = true := by
  refine ⟨fun r => hasSub_iff_infix r.toList "missing".toList, by decide, by decide⟩

/-- C5 counterexample: for the two-segment error
`"hostname.y: Required field missing"`, the missing adjustment leaves the
single segment `hostname`, yet the resolver does not return line 1: it
runs the Key scan, finds `hostname` on line 2 of
`["x: 0", "hostname: 1"]`, and returns 2. -/
theorem c5_counterexample_adjusted_singleton :
    missingClass "hostname.y: Required field missing" = true ∧
    (adjustedParts "hostname.y: Required field missing").length = 1 ∧
    yamaleAnnotationLines ["hostname.y: Required field missing"]
      ["x: 0", "hostname: 1"] = [2] := by
  decide

/-- C5 as amended: only an original single-segment key path (no dot in the
path part) returns line 1 unconditionally; a two-segment path reduced to
one segment by the missing adjustment is resolved by the ordinary segment
walk instead, which can return another line (concretely, line 2 in the
counterexample document). -/
theorem c5_single_segment_returns_line1 (split : List String) (r : String)
    (h : (pathParts r).length = 1) :
    resolveError split r = some 1 :=
  resolveError_singleton split r h

theorem c5_single_segment_returns_line1_witness :
    ((pathParts "devices: Required field missing").length = 1) ∧
    resolveError (splitCodeLines ["devices:", "  - name: sw1"])
      "devices: Required field missing" = some 1 :=
  ⟨by decide, c5_single_segment_returns_line1 _ _ (by decide)⟩

/-- C9 counterexample: a colon-less raw error containing a dot is not
treated as a document-level error on line 1 — the whole string becomes the
path part, its dot-separated pieces are walked, and `"oops.bad"` resolves
to line 2 of `["a: 1", "bad thing here"]` (where `bad` occurs). -/
theorem c9_counterexample_colonless_dotted :
    ("oops.bad".toList.contains ':') = false ∧
    yamaleAnnotationLines ["oops.bad"] ["a: 1", "bad thing here"] = [2] := by
  decide

/-- C9 as amended: a raw error with no colon is treated as a key path in
its entirety (not as message text); it maps to line 1 exactly when it
also contains no dot, while a dotted colon-less string is walked through
the ordinary segment resolution.  No exception is thrown either way (the
resolver is total). -/
theorem c9_colonless_dotless_line1 (split : List String) (r : String)
    (hc : r.toList.contains ':' = false) (hd : r.toList.contains '.' = false) :
    resolveError split r = some 1 := by
  have h1 : splitOnChar ':' r.toList = [r.toList] :=
    splitOnChar_of_not_contains ':' r.toList hc
  have h2 : splitOnChar '.' r.toList = [r.toList] :=
    splitOnChar_of_not_contains '.' r.toList hd
  have hp : pathParts r = [String.mk r.toList] := by
    unfold pathParts
    rw [h1, List.headD_cons, h2]
    rfl
  exact resolveError_singleton split r (by rw [hp]; rfl)

theorem c9_colonless_dotless_line1_witness :
    ("everything broke here".toList.contains ':') = false ∧
    ("everything broke here".toList.contains '.') = false ∧
    resolveError (splitCodeLines ["a: 1"]) "everything broke here" = some 1 :=
  ⟨by decide, by decide,
    c9_colonless_dotless_line1 _ _ (by decide) (by decide)⟩

/-- `getD` through `drop`: reading the dropped list at `i` reads the
original at `n + i`. -/
theorem getD_drop (l : List String) (n i : Nat) (d : String) :
    (l.drop n).getD i d = l.getD (n + i) d := by
  simp [List.getD_eq_getElem?_getD, List.getElem?_drop]

/-- The Key-segment loop over entries rendered from document lines: if the
entries `es` are the renderings of the lines `ts` numbered `ln, ln + 1,
...` (same trimmed text once the number prefix is stripped, leading
number `ln + i`, one trailing unnumbered entry), then the loop computes
the spec-side scan of `ts` starting at line number `ln`. -/
theorem keyLoop_spec_suffix (ts : List String) :
    ∀ (es : List String) (p : String) (cur ln : Nat),
      es.length = ts.length + 1 →
      (∀ i, i < ts.length + 1 →
        jsTrim (stripLineNum (es.getD i "")) = jsTrim (ts.getD i "")) →
      (∀ i, i < ts.length + 1 →
        leadNat (es.getD i "") = if i < ts.length then some (ln + i) else none) →
      keyLoop p cur es = keyScanSpecAux p cur ln ts := by
  induction ts with
  | nil =>
    intro es p cur ln hlen hTrim hlead
    cases es with
    | nil => rfl
    | cons e es' =>
      have hes' : es' = [] := List.eq_nil_of_length_eq_zero (by simpa using hlen)
      subst hes'
      have h0 := hTrim 0 (by omega)
      have h1 := hlead 0 (by omega)
      simp [List.getD] at h0 h1
      simp only [keyLoop, keyScanSpecAux, h0, h1]
      split <;> rfl
  | cons t ts ih =>
    intro es p cur ln hlen hTrim hlead
    cases es with
    | nil =>
      simp only [List.length_nil, List.length_cons] at hlen
      omega
    | cons e es' =>
      have hlen' : es'.length = ts.length + 1 := by simpa using hlen
      have h0 := hTrim 0 (by omega)
      have hl0 := hlead 0 (by omega)
      simp [List.getD] at h0 hl0
      simp only [keyLoop, keyScanSpecAux, h0, hl0]
      by_cases hc : containsStr (jsTrim t) p = true
      · simp [hc]
      · rw [if_neg (by simpa using hc), if_neg (by simpa using hc)]
        apply ih es' p cur (ln + 1) hlen' ?_ ?_
        · intro i hi
          have h := hTrim (i + 1) (by simp only [List.length_cons]; omega)
          simpa [List.getD_cons_succ] using h
        · intro i hi
          have h := hlead (i + 1) (by simp only [List.length_cons]; omega)
          rw [List.getD_cons_succ] at h
          rw [h]
          by_cases hi2 : i < ts.length
          · rw [if_pos (by simp only [List.length_cons]; omega), if_pos hi2]
            have he : ln + (i + 1) = ln + 1 + i := by omega
            rw [he]
          · rw [if_neg (by simp only [List.length_cons]; omega), if_neg hi2]

/-- C2 counterexample: the Key-segment scan starts at array index
`currentLine`, which is document line `currentLine + 1` — the cursor line
itself is never scanned.  With cursor 1 and key `alpha` in
`["alpha: 1", "beta: 2", "alpha: 3"]`, the claim's scan (from the cursor
line) stops at line 1, while the resolver skips line 1 and lands on
line 3; the whole resolver maps `"alpha.alpha: x"` to `[3]`. -/
theorem c2_counterexample_cursor_line_skipped :
    yamaleAnnotationLines ["alpha.alpha: x"] ["alpha: 1", "beta: 2", "alpha: 3"] = [3] ∧
    keyStep (splitCodeLines ["alpha: 1", "beta: 2", "alpha: 3"]) "alpha" 1 = 3 ∧
    keyStepSpecC2 ["alpha: 1", "beta: 2", "alpha: 3"] "alpha" 1 = 1 := by
  decide

/-- C2 as amended: a Key segment scans strictly after the cursor line —
from document line `cur + 1` to the end — and the first scanned line whose
trimmed text contains the key as a substring becomes the new cursor; if no
scanned line contains it the cursor is unchanged (and later segments are
still processed on the unchanged cursor).  A key occurring only on the
cursor line itself is not found.  Stated for any entry array that renders
the document as `yamaleAnnotationLines` does (same trimmed text after the
number prefix is stripped, leading number `i + 1` at index `i`, one
trailing unnumbered entry). -/
theorem c2_key_scan_strictly_after (split doc : List String) (p : String) (cur : Nat)
    (hlen : split.length = doc.length + 1)
    (hTrim : ∀ i, i < doc.length + 1 →
      jsTrim (stripLineNum (split.getD i "")) = jsTrim (doc.getD i ""))
    (hlead : ∀ i, i < doc.length + 1 →
      leadNat (split.getD i "") = if i < doc.length then some (i + 1) else none) :
    keyStep split p cur = keyScanSpecAux p cur (cur + 1) (doc.drop cur) := by
  unfold keyStep
  by_cases hcur : cur ≤ doc.length
  · apply keyLoop_spec_suffix (doc.drop cur) (split.drop cur) p cur (cur + 1) ?_ ?_ ?_
    · simp only [List.length_drop]
      omega
    · intro i hi
      rw [getD_drop, getD_drop]
      apply hTrim
      simp only [List.length_drop] at hi
      omega
    · intro i hi
      rw [getD_drop]
      have h := hlead (cur + i) (by simp only [List.length_drop] at hi; omega)
      rw [h]
      simp only [List.length_drop]
      by_cases hi2 : cur + i < doc.length
      · rw [if_pos hi2, if_pos (by omega)]
        have : cur + i + 1 = cur + 1 + i := by omega
        rw [this]
      · rw [if_neg hi2, if_neg (by omega)]
  · have h1 : split.drop cur = [] := List.drop_eq_nil_of_le (by omega)
    have h2 : doc.drop cur = [] := List.drop_eq_nil_of_le (by omega)
    rw [h1, h2]
    rfl

theorem c2_key_scan_strictly_after_witness :
    ((splitCodeLines ["top: a", "a: 1"]).length = ["top: a", "a: 1"].length + 1) ∧
    (∀ i, i < ["top: a", "a: 1"].length + 1 →
      jsTrim (stripLineNum ((splitCodeLines ["top: a", "a: 1"]).getD i ""))
        = jsTrim ((["top: a", "a: 1"] : List String).getD i "")) ∧
    (∀ i, i < ["top: a", "a: 1"].length + 1 →
      leadNat ((splitCodeLines ["top: a", "a: 1"]).getD i "")
        = if i < ["top: a", "a: 1"].length then some (i + 1) else none) ∧
    keyStep (splitCodeLines ["top: a", "a: 1"]) "a" 1
      = keyScanSpecAux "a" 1 2 ((["top: a", "a: 1"] : List String).drop 1) :=
  ⟨by decide, by decide, by decide,
    c2_key_scan_strictly_after (splitCodeLines ["top: a", "a: 1"]) ["top: a", "a: 1"]
      "a" 1 (by decide) (by decide) (by decide)⟩

/-- If a character list has no leading whitespace, `dropWhile` keeps it
whole. -/
theorem dropWhile_eq_self_of_takeWhile_nil (l : List Char)
    (h : l.takeWhile jsWs = []) : l.dropWhile jsWs = l := by
  have h2 := List.takeWhile_append_dropWhile (p := jsWs) (l := l)
  rw [h] at h2
  simpa using h2

/-- A list with no leading whitespace is its trim followed by the trailing
whitespace. -/
theorem jsTrimList_append_ws (l : List Char) (h : l.takeWhile jsWs = []) :
    l = jsTrimList l ++ (l.reverse.takeWhile jsWs).reverse := by
  unfold jsTrimList
  rw [dropWhile_eq_self_of_takeWhile_nil l h, ← List.reverse_append,
    List.takeWhile_append_dropWhile, List.reverse_reverse]

/-- When a list has no leading whitespace and its trim starts with `-`,
the list itself starts with `-`. -/
theorem head_eq_of_trim_head (l : List Char) (h : l.takeWhile jsWs = [])
    (hd : (jsTrimList l).head? = some '-') : l.head? = some '-' := by
  have hsplit := jsTrimList_append_ws l h
  cases htl : jsTrimList l with
  | nil => rw [htl] at hd; simp at hd
  | cons c r =>
    rw [htl] at hd hsplit
    simp at hd
    rw [hsplit]
    simp [hd]

/-- From a trimmed dash test to a head dash, for strings with no leading
whitespace. -/
theorem head_of_charStartsWith_trim (s : String)
    (hc : charStartsWith (jsTrim s) '-' = true)
    (h : s.toList.takeWhile jsWs = []) : s.toList.head? = some '-' := by
  apply head_eq_of_trim_head _ h
  unfold charStartsWith jsTrim at hc
  simpa using hc

/-- For a string with no leading whitespace whose first character is `-`,
the indent-capturing match yields the empty capture. -/
theorem matchIndentDash_of_head (s : String) (h : s.toList.takeWhile jsWs = [])
    (hd : s.toList.head? = some '-') : matchIndentDash s = some "" := by
  have hd' : s.data.head? = some '-' := hd
  unfold matchIndentDash
  rw [h]
  simp [hd, hd']

/-- A string whose first character is `-` starts with `"-"` (and hence
with `"" ++ "-"`, the captured empty indentation plus the marker). -/
theorem strStartsWith_dash_of_head (s : String)
    (hd : s.toList.head? = some '-') : strStartsWith s "-" = true := by
  unfold strStartsWith
  cases hl : s.toList with
  | nil => rw [hl] at hd; simp at hd
  | cons c r =>
    rw [hl] at hd
    simp at hd
    subst hd
    simp [List.isPrefixOf]

/-- The Index-segment loop over entries rendered from document lines: when
the entries have no leading whitespace once the number prefix is stripped
(as the rendered `"N: <text> "` entries do, the regex having consumed the
indentation), the reference indentation captured from the first list-item
entry is empty and every list-item entry passes the indentation check, so
the loop computes the indentation-blind spec-side count over the document
lines numbered `ln, ln + 1, ...` with running count `k`. -/
theorem indexLoop_spec_suffix (ts : List String) :
    ∀ (es : List String) (n : Int) (cur ln : Nat) (k : Int) (ff : Bool),
      es.length = ts.length + 1 →
      (∀ i, i < ts.length + 1 →
        jsTrim (stripLineNum (es.getD i "")) = jsTrim (ts.getD i "")) →
      (∀ i, i < ts.length + 1 →
        leadNat (es.getD i "") = if i < ts.length then some (ln + i) else none) →
      (∀ i, i < ts.length + 1 →
        (stripLineNum (es.getD i "")).toList.takeWhile jsWs = []) →
      indexLoop n cur es k ff "" = indexScanSpecAux n cur ln k ts := by
  induction ts with
  | nil =>
    intro es n cur ln k ff hlen hTrim hlead hws
    cases es with
    | nil => rfl
    | cons e es' =>
      have hes' : es' = [] := List.eq_nil_of_length_eq_zero (by simpa using hlen)
      subst hes'
      have h0 := hTrim 0 (by omega)
      simp [List.getD] at h0
      have hc : charStartsWith (jsTrim (stripLineNum e)) '-' = false := by
        rw [h0]; decide
      simp [indexLoop, hc, indexScanSpecAux]
  | cons t ts ih =>
    intro es n cur ln k ff hlen hTrim hlead hws
    cases es with
    | nil =>
      simp only [List.length_nil, List.length_cons] at hlen
      omega
    | cons e es' =>
      have hlen' : es'.length = ts.length + 1 := by simpa using hlen
      have h0 : jsTrim (stripLineNum e) = jsTrim t := by
        have h := hTrim 0 (by omega)
        simpa only [List.getD_cons_zero] using h
      have hl0 : leadNat e = some ln := by
        have h := hlead 0 (by omega)
        simpa using h
      have hw0 : (stripLineNum e).toList.takeWhile jsWs = [] := by
        have h := hws 0 (by omega)
        simpa only [List.getD_cons_zero] using h
      have hTrim' : ∀ i, i < ts.length + 1 →
          jsTrim (stripLineNum (es'.getD i "")) = jsTrim (ts.getD i "") := by
        intro i hi
        have h := hTrim (i + 1) (by simp only [List.length_cons]; omega)
        simpa [List.getD_cons_succ] using h
      have hws' : ∀ i, i < ts.length + 1 →
          (stripLineNum (es'.getD i "")).toList.takeWhile jsWs = [] := by
        intro i hi
        have h := hws (i + 1) (by simp only [List.length_cons]; omega)
        simpa [List.getD_cons_succ] using h
      have hlead' : ∀ i, i < ts.length + 1 →
          leadNat (es'.getD i "") = if i < ts.length then some (ln + 1 + i) else none := by
        intro i hi
        have h := hlead (i + 1) (by simp only [List.length_cons]; omega)
        rw [List.getD_cons_succ] at h
        rw [h]
        by_cases hi2 : i < ts.length
        · rw [if_pos (by simp only [List.length_cons]; omega), if_pos hi2]
          have he : ln + (i + 1) = ln + 1 + i := by omega
          rw [he]
        · rw [if_neg (by simp only [List.length_cons]; omega), if_neg hi2]
      by_cases hc : charStartsWith (jsTrim t) '-' = true
      · have hc' : charStartsWith (jsTrim (stripLineNum e)) '-' = true := by
          rw [h0]; exact hc
        have hhead : (stripLineNum e).toList.head? = some '-' :=
          head_of_charStartsWith_trim _ hc' hw0
        have hmid : matchIndentDash (stripLineNum e) = some "" :=
          matchIndentDash_of_head _ hw0 hhead
        have hpre : strStartsWith (stripLineNum e) "-" = true :=
          strStartsWith_dash_of_head _ hhead
        cases ff with
        | false =>
          by_cases hk : (k == n) = true
          · simp [indexLoop, indexScanSpecAux, hc', hc, hmid, hl0, hpre, hk]
          · simp [indexLoop, indexScanSpecAux, hc', hc, hmid, hl0, hpre, hk]
            exact ih es' n cur (ln + 1) (k + 1) true hlen' hTrim' hlead' hws'
        | true =>
          by_cases hk : (k == n) = true
          · simp [indexLoop, indexScanSpecAux, hc', hc, hmid, hl0, hpre, hk]
          · simp [indexLoop, indexScanSpecAux, hc', hc, hmid, hl0, hpre, hk]
            exact ih es' n cur (ln + 1) (k + 1) true hlen' hTrim' hlead' hws'
      · have hcf : charStartsWith (jsTrim t) '-' = false := by
          simpa using hc
        have hc' : charStartsWith (jsTrim (stripLineNum e)) '-' = false := by
          rw [h0]; exact hcf
        simp only [indexLoop, indexScanSpecAux, hc', hcf, if_false]
        simp [hc', hcf]
        exact ih es' n cur (ln + 1) k ff hlen' hTrim' hlead' hws'

/-- C3 counterexample: (a) the number-stripping regex also consumes the
YAML indentation of the rendered lines, so the captured reference
indentation is always empty and list-item lines at any depth advance the
count: for `["items:", "  - a:", "      - b", "  - c"]` with index 1 the
resolver picks line 3 (the nested `- b`), while the claim's
exact-indentation count picks line 4 (`- c`) — `"items.1: invalid"`
resolves to `[3]`; (b) the scan starts strictly after the cursor line, so
a list item on the cursor line itself is not counted: on `["- a", "- b"]`
with index 0 from cursor 1 the resolver picks line 2, the claim's
at-or-after scan picks line 1. -/
theorem c3_counterexample_indentation_blind :
    yamaleAnnotationLines ["items.1: invalid"]
      ["items:", "  - a:", "      - b", "  - c"] = [3] ∧
    indexStep (splitCodeLines ["items:", "  - a:", "      - b", "  - c"]) 1 1 = 3 ∧
    indexStepSpecC3 ["items:", "  - a:", "      - b", "  - c"] 1 1 = 4 ∧
    indexStep (splitCodeLines ["- a", "- b"]) 0 1 = 2 ∧
    indexStepSpecC3 ["- a", "- b"] 0 1 = 1 := by
  decide

/-- C3 as amended: an Index segment with value `n` scans strictly after
the cursor line (document lines `cur + 1` onward); because the
number-stripping regex has already consumed the indentation of the
rendered entries, the reference indentation captured from the first
list-item entry is empty and the indentation check passes for every
list-item line regardless of its original depth — the cursor is set to the
`n`-th (0-based) line strictly after the cursor whose trimmed text starts
with `-`, counting items at every indentation, and is left unchanged if
there is no such line.  Stated for any entry array that renders the
document as `yamaleAnnotationLines` does (same trimmed text and no leading
whitespace after the number prefix is stripped, leading number `i + 1` at
index `i`, one trailing unnumbered entry). -/
theorem c3_index_scan_counts_all_dashes (split doc : List String) (n : Int) (cur : Nat)
    (hlen : split.length = doc.length + 1)
    (hTrim : ∀ i, i < doc.length + 1 →
      jsTrim (stripLineNum (split.getD i "")) = jsTrim (doc.getD i ""))
    (hlead : ∀ i, i < doc.length + 1 →
      leadNat (split.getD i "") = if i < doc.length then some (i + 1) else none)
    (hws : ∀ i, i < doc.length + 1 →
      (stripLineNum (split.getD i "")).toList.takeWhile jsWs = []) :
    indexStep split n cur = indexScanSpecAux n cur (cur + 1) 0 (doc.drop cur) := by
  unfold indexStep
  by_cases hcur : cur ≤ doc.length
  · apply indexLoop_spec_suffix (doc.drop cur) (split.drop cur) n cur (cur + 1) 0 false
      ?_ ?_ ?_ ?_
    · simp only [List.length_drop]
      omega
    · intro i hi
      rw [getD_drop, getD_drop]
      apply hTrim
      simp only [List.length_drop] at hi
      omega
    · intro i hi
      rw [getD_drop]
      have h := hlead (cur + i) (by simp only [List.length_drop] at hi; omega)
      rw [h]
      simp only [List.length_drop]
      by_cases hi2 : cur + i < doc.length
      · rw [if_pos hi2, if_pos (by omega)]
        have he : cur + i + 1 = cur + 1 + i := by omega
        rw [he]
      · rw [if_neg hi2, if_neg (by omega)]
    · intro i hi
      rw [getD_drop]
      apply hws
      simp only [List.length_drop] at hi
      omega
  · have h1 : split.drop cur = [] := List.drop_eq_nil_of_le (by omega)
    have h2 : doc.drop cur = [] := List.drop_eq_nil_of_le (by omega)
    rw [h1, h2]
    rfl

theorem c3_index_scan_counts_all_dashes_witness :
    ((splitCodeLines ["items:", "  - a:", "      - b", "  - c"]).length
      = ["items:", "  - a:", "      - b", "  - c"].length + 1) ∧
    (∀ i, i < ["items:", "  - a:", "      - b", "  - c"].length + 1 →
      jsTrim (stripLineNum ((splitCodeLines ["items:", "  - a:", "      - b", "  - c"]).getD i ""))
        = jsTrim ((["items:", "  - a:", "      - b", "  - c"] : List String).getD i "")) ∧
    (∀ i, i < ["items:", "  - a:", "      - b", "  - c"].length + 1 →
      leadNat ((splitCodeLines ["items:", "  - a:", "      - b", "  - c"]).getD i "")
        = if i < ["items:", "  - a:", "      - b", "  - c"].length then some (i + 1) else none) ∧
    (∀ i, i < ["items:", "  - a:", "      - b", "  - c"].length + 1 →
      (stripLineNum ((splitCodeLines ["items:", "  - a:", "      - b", "  - c"]).getD i "")).toList.takeWhile jsWs
        = []) ∧
    indexStep (splitCodeLines ["items:", "  - a:", "      - b", "  - c"]) 1 1
      = indexScanSpecAux 1 1 2 0 ((["items:", "  - a:", "      - b", "  - c"] : List String).drop 1) :=
  ⟨by decide, by decide, by decide, by decide,
    c3_index_scan_counts_all_dashes
      (splitCodeLines ["items:", "  - a:", "      - b", "  - c"])
      ["items:", "  - a:", "      - b", "  - c"] 1 1
      (by decide) (by decide) (by decide) (by decide)⟩
